import Mathlib

/-!
Shallow embedding of the `LogoLoop` marquee component
(`src/components/LogoLoop.tsx`) and proofs of its specified properties.

JavaScript `number` arithmetic is modelled over `ℝ` (the motion controller
uses `Math.exp`); measured pixel widths, which the layout sizer only ever
ceils and divides, are modelled over `ℚ` so that the layout computations are
executable.  The JavaScript remainder operator `%` truncates the quotient
toward zero; it is modelled by `jsMod` below.
-/

namespace LogoLoop

/-! ## Definitions -/

/-- `ANIMATION_CONFIG.SMOOTH_TAU` (seconds). -/
noncomputable def SMOOTH_TAU : ℝ := 0.25

/-- `ANIMATION_CONFIG.MIN_COPIES`. -/
def MIN_COPIES : ℤ := 2

/-- `ANIMATION_CONFIG.COPY_HEADROOM`. -/
def COPY_HEADROOM : ℤ := 2

/-- JavaScript remainder `a % b`: `a - b * trunc (a / b)` in exact
arithmetic, where `trunc` rounds toward zero (floor for a nonnegative
quotient, ceiling for a negative one).  `b = 0` (which yields `NaN` in
JavaScript) never occurs in the component: every use is guarded by
`seqWidth > 0`. -/
noncomputable def jsMod (a b : ℝ) : ℝ :=
  if 0 ≤ a / b then a - b * (⌊a / b⌋ : ℝ) else a - b * (⌈a / b⌉ : ℝ)

/-- The double-modulo wrap `((x % w) + w) % w` used at lines 117 and 143 of
`LogoLoop.tsx` to keep the offset inside one sequence width. -/
noncomputable def wrap (x w : ℝ) : ℝ :=
  jsMod (jsMod x w + w) w

/-- The `direction` prop, `'left' | 'right'`. -/
inductive Direction where
  | left : Direction
  | right : Direction
deriving DecidableEq

/-- `targetVelocity` memo (lines 221-226):
`|speed| * (direction === 'left' ? 1 : -1) * (speed < 0 ? -1 : 1)`. -/
noncomputable def targetVelocityOf (speed : ℝ) (direction : Direction) : ℝ :=
  |speed| * (if direction = Direction.left then 1 else -1) *
    (if speed < 0 then -1 else 1)

/-- `effectiveHoverSpeed` memo (lines 216-219): the `hoverSpeed` prop when
defined, otherwise `0`. -/
def effectiveHoverSpeed (hoverSpeed : Option ℝ) : ℝ :=
  hoverSpeed.getD 0

/-- `handleMouseEnter` (lines 269-271): sets the hover state only when a
`hoverSpeed` prop is configured. -/
def handleMouseEnter (hoverSpeed : Option ℝ) (isHovered : Bool) : Bool :=
  match hoverSpeed with
  | some _ => true
  | none => isHovered

/-- `handleMouseLeave` (lines 273-275). -/
def handleMouseLeave (hoverSpeed : Option ℝ) (isHovered : Bool) : Bool :=
  match hoverSpeed with
  | some _ => false
  | none => isHovered

/-- The hover state after a sequence of pointer events (`true` = enter,
`false` = leave), starting from the initial `useState(false)`. -/
def hoverStateAfter (hoverSpeed : Option ℝ) (events : List Bool) : Bool :=
  events.foldl
    (fun st e =>
      cond e (handleMouseEnter hoverSpeed st) (handleMouseLeave hoverSpeed st))
    false

/-- The per-activation inputs of `useAnimationLoop` (lines 95-101): the
captured values of `targetVelocity`, `seqWidth`, `isHovered` and
`hoverSpeed` for one run of the effect. -/
structure Config where
  targetVelocity : ℝ
  seqWidth : ℝ
  isHovered : Bool
  hoverSpeed : Option ℝ

/-- The ref cells of `useAnimationLoop` (lines 102-105) plus the track's
applied x-translation (`track.style.transform`, recorded as the signed
pixel offset; `0` means untranslated, the state of a freshly mounted
track). -/
structure MotionState where
  rafPending : Bool
  lastTimestamp : Option ℝ
  offset : ℝ
  velocity : ℝ
  transform : ℝ

/-- The initial ref values at mount: no pending frame, no timestamp,
offset and velocity `0`, track untranslated. -/
def MotionState.initial : MotionState :=
  { rafPending := false
    lastTimestamp := none
    offset := 0
    velocity := 0
    transform := 0 }

/-- Lines 129-134: `lastTimestampRef` is initialised to the current
timestamp on the first frame, so `deltaTime = max(0, t - last) / 1000`
seconds, which is `0` on the first frame. -/
noncomputable def frameDeltaTime (s : MotionState) (timestamp : ℝ) : ℝ :=
  max 0 (timestamp - s.lastTimestamp.getD timestamp) / 1000

/-- Line 136: `isHovered && hoverSpeed !== undefined ? hoverSpeed :
targetVelocity`. -/
def targetOf (isHovered : Bool) (hoverSpeed : Option ℝ)
    (targetVelocity : ℝ) : ℝ :=
  match isHovered, hoverSpeed with
  | true, some h => h
  | true, none => targetVelocity
  | false, _ => targetVelocity

/-- The `animate` frame callback (lines 128-150): clamp the frame delta,
smooth the velocity toward the target with time constant `SMOOTH_TAU`, and
when `seqWidth > 0` advance and wrap the offset and re-apply the track
transform; finally re-schedule itself. -/
noncomputable def animate (cfg : Config) (s : MotionState)
    (timestamp : ℝ) : MotionState :=
  let deltaTime := frameDeltaTime s timestamp
  let target := targetOf cfg.isHovered cfg.hoverSpeed cfg.targetVelocity
  let velocity :=
    s.velocity + (target - s.velocity) * (1 - Real.exp (-deltaTime / SMOOTH_TAU))
  let offset :=
    if 0 < cfg.seqWidth then wrap (s.offset + velocity * deltaTime) cfg.seqWidth
    else s.offset
  { rafPending := true
    lastTimestamp := some timestamp
    offset := offset
    velocity := velocity
    transform := if 0 < cfg.seqWidth then -offset else s.transform }

/-- The body of the `useAnimationLoop` effect (lines 107-126): re-normalise
the carried-over offset modulo the (possibly new) sequence width and apply
the transform; then either pin the transform to `0` and stop (reduced
motion) or schedule the first frame. -/
noncomputable def setupEffect (prefersReduced : Bool) (cfg : Config)
    (s : MotionState) : MotionState :=
  let s1 :=
    if 0 < cfg.seqWidth then
      { s with
          offset := wrap s.offset cfg.seqWidth
          transform := -(wrap s.offset cfg.seqWidth) }
    else s
  if prefersReduced then { s1 with transform := 0 }
  else { s1 with rafPending := true }

/-- The effect cleanup in the animating case (lines 154-160): cancel the
pending frame and discard `lastTimestampRef`. -/
def cleanupAnimating (s : MotionState) : MotionState :=
  { s with rafPending := false, lastTimestamp := none }

/-- The effect cleanup in the reduced-motion case (lines 123-125): only
`lastTimestampRef` is discarded (no frame was scheduled). -/
def cleanupReduced (s : MotionState) : MotionState :=
  { s with lastTimestamp := none }

/-- One mounted component instance: the current ref state together with the
configuration captured by the currently active effect. -/
structure LoopState where
  ms : MotionState
  cfg : Config

/-- Host-driven events for one mounted instance: a frame callback firing at
a timestamp, a dependency change (the active effect's cleanup followed by
the effect body with the new configuration), and unmount (cleanup only). -/
inductive Event where
  | frame : ℝ → Event
  | reconfig : Config → Event
  | unmount : Event

/-- Host semantics: a frame callback fires only while one is scheduled; a
dependency change runs cleanup then the effect body; unmount runs cleanup.
`prefersReduced` is the host's reduced-motion preference, fixed for the
mount. -/
noncomputable def stepEvent (prefersReduced : Bool) (s : LoopState) :
    Event → LoopState
  | Event.frame t =>
      if s.ms.rafPending then { s with ms := animate s.cfg s.ms t } else s
  | Event.reconfig c =>
      { ms :=
          setupEffect prefersReduced c
            (if prefersReduced then cleanupReduced s.ms
             else cleanupAnimating s.ms)
        cfg := c }
  | Event.unmount =>
      { s with
          ms :=
            if prefersReduced then cleanupReduced s.ms
            else cleanupAnimating s.ms }

/-- Run a list of host events. -/
noncomputable def run (prefersReduced : Bool) (s : LoopState)
    (events : List Event) : LoopState :=
  events.foldl (stepEvent prefersReduced) s

/-- The state just after mount: fresh refs, then the first run of the
effect body. -/
noncomputable def mount (prefersReduced : Bool) (cfg : Config) : LoopState :=
  { ms := setupEffect prefersReduced cfg MotionState.initial, cfg := cfg }

/-- Iterate the raw frame callback over a list of timestamps. -/
noncomputable def runFrames (cfg : Config) (s : MotionState)
    (timestamps : List ℝ) : MotionState :=
  timestamps.foldl (animate cfg) s

/-- The last element of a list, with a default for the empty list. -/
def lastD : List ℝ → ℝ → ℝ
  | [], d => d
  | t :: rest, _ => lastD rest t

/-- The `useResizeObserver` cleanup (lines 42-44): every observer created by
the current run of the effect is disconnected (`true` = still observing).
The effect's dependency array contains freshly constructed arrays on every
render, so this cleanup runs on every re-render of the component (any prop
or state change) and on unmount. -/
def disconnectObservers (observers : List Bool) : List Bool :=
  observers.map (fun _ => false)

/-- The layout state set by `updateDimensions`: the `seqWidth` and
`copyCount` `useState` cells (lines 212-213). -/
structure LayoutState where
  seqWidth : ℤ
  copyCount : ℤ
deriving DecidableEq

/-- Initial layout state: `useState(0)` and
`useState(ANIMATION_CONFIG.MIN_COPIES)`. -/
def LayoutState.initial : LayoutState :=
  { seqWidth := 0, copyCount := MIN_COPIES }

/-- `updateDimensions` (lines 228-238): with a positive measured sequence
width, store its ceiling and set
`copyCount = max(MIN_COPIES, ceil(containerWidth / sequenceWidth) +
COPY_HEADROOM)`; with a non-positive measured width, change nothing (in
particular no division by the zero width is performed). -/
def updateDimensions (containerWidth sequenceWidth : ℚ)
    (s : LayoutState) : LayoutState :=
  if 0 < sequenceWidth then
    { seqWidth := ⌈sequenceWidth⌉
      copyCount :=
        max MIN_COPIES (⌈containerWidth / sequenceWidth⌉ + COPY_HEADROOM) }
  else s

/-- The layout state after a sequence of measurements
`(containerWidth, sequenceWidth)`, starting from the initial state. -/
def runLayout (measurements : List (ℚ × ℚ)) : LayoutState :=
  measurements.foldl (fun s m => updateDimensions m.1 m.2 s)
    LayoutState.initial

/-- The state of one run of the `useImageLoader` effect: the captured
`remainingImages` counter and the number of calls made to the `onLoad`
callback (the layout recomputation). -/
structure LoaderState where
  remaining : ℤ
  loadCalls : ℕ
deriving DecidableEq

/-- `handleImageLoad` (lines 68-73): decrement the remaining-image counter
and invoke `onLoad` exactly when it reaches zero. -/
def handleImageLoad (s : LoaderState) : LoaderState :=
  let r := s.remaining - 1
  { remaining := r
    loadCalls := if r = 0 then s.loadCalls + 1 else s.loadCalls }

/-- The body of the `useImageLoader` effect (lines 53-83): with no
container or no images, call `onLoad` immediately; otherwise start the
counter at the number of images and process the already-`complete` images
in order (each image is listed by its `complete` flag). -/
def setupImageLoader (hasContainer : Bool) (images : List Bool) :
    LoaderState :=
  if hasContainer = false then { remaining := 0, loadCalls := 1 }
  else if images = [] then { remaining := 0, loadCalls := 1 }
  else
    images.foldl (fun s complete => if complete then handleImageLoad s else s)
      { remaining := (images.length : ℤ), loadCalls := 0 }

/-- One image settling after setup.  Both the `load` and the `error`
listener are `handleImageLoad` (lines 80-81), so the outcome flag
(`true` = loaded, `false` = failed) is ignored: failure counts exactly
like success. -/
def settleImage (s : LoaderState) (_outcome : Bool) : LoaderState :=
  handleImageLoad s

/-- All the given settle events (one per not-yet-complete image, each fired
at most once thanks to `{ once: true }`). -/
def settleImages (s : LoaderState) (outcomes : List Bool) : LoaderState :=
  outcomes.foldl settleImage s

/-- The fields of one `LogoItem` that the renderer inspects: whether the
item has a `node` field (inline content), and its optional `src`, `alt`,
`title`, `href` and `ariaLabel` strings. -/
structure LogoItem where
  node : Bool
  src : Option String
  alt : Option String
  title : Option String
  href : Option String
  ariaLabel : Option String
deriving DecidableEq

/-- JavaScript `??`: keep the left operand unless it is null/undefined
(an empty string is kept). -/
def nullishCoalesce (a b : Option String) : Option String :=
  match a with
  | some v => some v
  | none => b

/-- JavaScript `||` with a string default: an absent or empty (falsy)
string falls back to the default. -/
def jsTruthyOr (s : Option String) (d : String) : String :=
  match s with
  | some v => if v = "" then d else v
  | none => d

/-- Line 332: `itemAriaLabel = isNodeItem ? item?.ariaLabel ?? item?.title
: item?.alt ?? item?.title`. -/
def itemAriaLabelOf (item : LogoItem) : Option String :=
  if item.node then nullishCoalesce item.ariaLabel item.title
  else nullishCoalesce item.alt item.title

/-- The attributes of the anchor element produced when an item carries an
`href` (lines 334-348). -/
structure LinkAttrs where
  href : String
  ariaLabel : String
  target : String
  rel : String
deriving DecidableEq

/-- The link wrapper of `renderLogoItemInternal` (lines 334-351): an item
with an `href` is wrapped in an anchor with
`aria-label={itemAriaLabel || 'logo link'}`, `target="_blank"` and
`rel="noreferrer noopener"`; an item without one is rendered bare. -/
def renderLink (item : LogoItem) : Option LinkAttrs :=
  match item.href with
  | some h =>
      some
        { href := h
          ariaLabel := jsTruthyOr (itemAriaLabelOf item) "logo link"
          target := "_blank"
          rel := "noreferrer noopener" }
  | none => none

/-- The accessible-name precedence exactly as the claim states it: the
item's `ariaLabel` if present, else its `title`, else `"logo link"`.
Written from the spec's words, to be compared with `renderLink`. -/
def claimedAccessibleName (item : LogoItem) : String :=
  match item.ariaLabel with
  | some s => s
  | none =>
      match item.title with
      | some t => t
      | none => "logo link"

/-- The accessible-name precedence the code actually implements, written
from the amended claim's words: the primary label is `ariaLabel` for inline
(`node`) items and `alt` for image items; if it is absent the `title` is
used; a missing or empty result falls back to `"logo link"`. -/
def amendedAccessibleName (item : LogoItem) : String :=
  match (if item.node then item.ariaLabel else item.alt) with
  | some s => if s = "" then "logo link" else s
  | none =>
      match item.title with
      | some t => if t = "" then "logo link" else t
      | none => "logo link"

/-! ## Arithmetic lemmas for the double modulo -/

theorem jsMod_of_nonneg {a b : ℝ} (hb : 0 < b) (ha : 0 ≤ a) :
    jsMod a b = b * Int.fract (a / b) := by
  have hq : 0 ≤ a / b := div_nonneg ha hb.le
  have hba : b * (a / b) = a := by field_simp
  rw [jsMod, if_pos hq, Int.fract, mul_sub, hba]

theorem jsMod_nonneg_lt {a b : ℝ} (hb : 0 < b) (ha : 0 ≤ a) :
    0 ≤ jsMod a b ∧ jsMod a b < b := by
  rw [jsMod_of_nonneg hb ha]
  constructor
  · exact mul_nonneg hb.le (Int.fract_nonneg _)
  · calc b * Int.fract (a / b) < b * 1 :=
          mul_lt_mul_of_pos_left (Int.fract_lt_one _) hb
      _ = b := mul_one b

theorem jsMod_neg_bounds {a b : ℝ} (hb : 0 < b) (ha : a < 0) :
    -b < jsMod a b ∧ jsMod a b ≤ 0 := by
  have hq : a / b < 0 := div_neg_of_neg_of_pos ha hb
  have hba : b * (a / b) = a := by field_simp
  have hceil : jsMod a b = b * (a / b - (⌈a / b⌉ : ℝ)) := by
    rw [jsMod, if_neg (not_le.mpr hq), mul_sub, hba]
  constructor
  · have h1 : (⌈a / b⌉ : ℝ) < a / b + 1 := Int.ceil_lt_add_one _
    have h2 : (-1 : ℝ) < a / b - (⌈a / b⌉ : ℝ) := by linarith
    calc -b = b * (-1) := by ring
      _ < b * (a / b - (⌈a / b⌉ : ℝ)) := mul_lt_mul_of_pos_left h2 hb
      _ = jsMod a b := hceil.symm
  · have h1 : a / b ≤ (⌈a / b⌉ : ℝ) := Int.le_ceil _
    have h2 : a / b - (⌈a / b⌉ : ℝ) ≤ 0 := by linarith
    rw [hceil]
    exact mul_nonpos_of_nonneg_of_nonpos hb.le h2

/-- The double modulo always lands in `[0, w)` when `w > 0`, for inputs of
either sign. -/
theorem wrap_nonneg_lt {x w : ℝ} (hw : 0 < w) :
    0 ≤ wrap x w ∧ wrap x w < w := by
  have hmem : 0 ≤ jsMod x w + w := by
    rcases le_or_lt 0 x with hx | hx
    · have h := jsMod_nonneg_lt hw hx
      linarith [h.1]
    · have h := jsMod_neg_bounds hw hx
      linarith [h.1]
  exact jsMod_nonneg_lt hw hmem

/-- An already-normalised offset is unchanged by the double modulo. -/
theorem wrap_eq_self {x w : ℝ} (hw : 0 < w) (h0 : 0 ≤ x) (h1 : x < w) :
    wrap x w = x := by
  have hq0 : 0 ≤ x / w := div_nonneg h0 hw.le
  have hq1 : x / w < 1 := (div_lt_one hw).mpr h1
  have hfl : ⌊x / w⌋ = 0 := Int.floor_eq_zero_iff.mpr ⟨hq0, hq1⟩
  have hm : jsMod x w = x := by
    rw [jsMod, if_pos hq0, hfl]
    push_cast
    ring
  have hq0' : 0 ≤ (x + w) / w := by positivity
  have hfl' : ⌊(x + w) / w⌋ = 1 := by
    rw [Int.floor_eq_iff]
    constructor
    · push_cast
      rw [le_div_iff₀ hw]
      linarith
    · push_cast
      rw [div_lt_iff₀ hw]
      linarith
  rw [wrap, hm, jsMod, if_pos hq0', hfl']
  push_cast
  ring

theorem wrap_zero {w : ℝ} (hw : 0 < w) : wrap 0 w = 0 :=
  wrap_eq_self hw le_rfl hw

/-! ## Projections of one animation frame -/

theorem animate_velocity (cfg : Config) (s : MotionState) (t : ℝ) :
    (animate cfg s t).velocity =
      s.velocity +
        (targetOf cfg.isHovered cfg.hoverSpeed cfg.targetVelocity - s.velocity) *
          (1 - Real.exp (-frameDeltaTime s t / SMOOTH_TAU)) := rfl

theorem animate_offset (cfg : Config) (s : MotionState) (t : ℝ) :
    (animate cfg s t).offset =
      if 0 < cfg.seqWidth then
        wrap (s.offset + (animate cfg s t).velocity * frameDeltaTime s t)
          cfg.seqWidth
      else s.offset := rfl

theorem animate_lastTimestamp (cfg : Config) (s : MotionState) (t : ℝ) :
    (animate cfg s t).lastTimestamp = some t := rfl

theorem animate_offset_mem {cfg : Config} (s : MotionState) (t : ℝ)
    (hw : 0 < cfg.seqWidth) :
    0 ≤ (animate cfg s t).offset ∧ (animate cfg s t).offset < cfg.seqWidth := by
  rw [animate_offset, if_pos hw]
  exact wrap_nonneg_lt hw

theorem runFrames_offset_mem {cfg : Config} (hw : 0 < cfg.seqWidth) :
    ∀ (ts : List ℝ), ts ≠ [] → ∀ s : MotionState,
      0 ≤ (runFrames cfg s ts).offset ∧
        (runFrames cfg s ts).offset < cfg.seqWidth := by
  intro ts
  induction ts with
  | nil => intro h; exact absurd rfl h
  | cons t rest ih =>
      intro _ s
      rcases eq_or_ne rest [] with hr | hr
      · subst hr
        exact animate_offset_mem s t hw
      · exact ih hr (animate cfg s t)

/-! ## Claim theorems -/

/-- C1: in the Animating state with `seqWidth > 0`, the double-modulo update
`((offset + velocity*dt) mod w + w) mod w` leaves the offset in
`[0, seqWidth)` after every frame, for any timestamp sequence (out-of-order
or repeated timestamps included, since `dt` is clamped to be nonnegative)
and for velocities of either sign. -/
theorem frame_offset_in_range (cfg : Config) (hw : 0 < cfg.seqWidth) :
    (∀ (s : MotionState) (t : ℝ),
        0 ≤ (animate cfg s t).offset ∧
          (animate cfg s t).offset < cfg.seqWidth) ∧
    (∀ (s : MotionState) (ts : List ℝ), ts ≠ [] →
        0 ≤ (runFrames cfg s ts).offset ∧
          (runFrames cfg s ts).offset < cfg.seqWidth) :=
  ⟨fun s t => animate_offset_mem s t hw,
   fun s ts hts => runFrames_offset_mem hw ts hts s⟩

theorem frame_offset_in_range_witness :
    (0 : ℝ) < 1 ∧
      (∀ (s : MotionState) (t : ℝ),
          0 ≤ (animate ⟨120, 1, false, none⟩ s t).offset ∧
            (animate ⟨120, 1, false, none⟩ s t).offset < (1 : ℝ)) :=
  ⟨by norm_num, (frame_offset_in_range ⟨120, 1, false, none⟩ (by norm_num)).1⟩

theorem hoverStateAfter_none (events : List Bool) :
    hoverStateAfter none events = false := by
  rw [hoverStateAfter]
  induction events with
  | nil => rfl
  | cons e rest ih =>
      rw [List.foldl_cons]
      cases e <;> exact ih

/-- C2: the per-frame velocity target is `hoverSpeed` exactly when the
pointer is hovering and a `hoverSpeed` is configured (an unconfigured
`hoverSpeed` can never produce a hovering state), and otherwise it is
`|speed| * (1 if direction = left else -1) * sign speed`, so a negative
configured speed reverses the configured direction; in particular
`speed = 120, direction = left` gives `120`; `speed = -120,
direction = left` gives `-120`; `speed = 120, direction = right` gives
`-120`. -/
theorem target_velocity_spec :
    (∀ (speed h : ℝ) (direction : Direction),
        targetOf true (some (effectiveHoverSpeed (some h)))
          (targetVelocityOf speed direction) = h) ∧
    (∀ (speed : ℝ) (direction : Direction) (hoverSpeed : Option ℝ),
        targetOf false (some (effectiveHoverSpeed hoverSpeed))
          (targetVelocityOf speed direction) = targetVelocityOf speed direction) ∧
    (∀ (hoverSpeed : Option ℝ) (events : List Bool),
        hoverSpeed = none → hoverStateAfter hoverSpeed events = false) ∧
    (∀ (speed : ℝ) (direction : Direction),
        targetVelocityOf speed direction =
          |speed| * (if direction = Direction.left then 1 else -1) *
            Real.sign speed) ∧
    targetVelocityOf 120 Direction.left = 120 ∧
    targetVelocityOf (-120) Direction.left = -120 ∧
    targetVelocityOf 120 Direction.right = -120 := by
  refine ⟨fun _ _ _ => rfl, fun _ _ _ => rfl, ?_, ?_, ?_, ?_, ?_⟩
  · intro hs events h
    subst h
    exact hoverStateAfter_none events
  · intro speed direction
    rcases lt_trichotomy speed 0 with h | h | h
    · rw [targetVelocityOf, if_pos h, Real.sign_of_neg h]
    · subst h
      simp [targetVelocityOf]
    · rw [targetVelocityOf, if_neg (not_lt.mpr h.le), Real.sign_of_pos h]
  · norm_num [targetVelocityOf]
  · norm_num [targetVelocityOf]
  · norm_num [targetVelocityOf]
    decide

theorem target_velocity_spec_witness :
    hoverStateAfter (none : Option ℝ) [true, false, true] = false :=
  target_velocity_spec.2.2.1 none [true, false, true] rfl

theorem targetOf_hovering (h tv : ℝ) : targetOf true (some h) tv = h := rfl

theorem animate_velocity_decay {cfg : Config} (s : MotionState) {t t0 : ℝ}
    (hH : cfg.isHovered = true) (h0 : cfg.hoverSpeed = some 0)
    (hlast : s.lastTimestamp = some t0) (hle : t0 ≤ t) :
    (animate cfg s t).velocity =
      s.velocity * Real.exp (-((t - t0) / 1000) / SMOOTH_TAU) := by
  have hdt : frameDeltaTime s t = (t - t0) / 1000 := by
    rw [frameDeltaTime, hlast, Option.getD_some,
      max_eq_right (sub_nonneg.mpr hle)]
  rw [animate_velocity, hH, h0, targetOf_hovering, hdt]
  ring

theorem runFrames_velocity_decay {cfg : Config}
    (hH : cfg.isHovered = true) (h0 : cfg.hoverSpeed = some 0) :
    ∀ (ts : List ℝ) (s : MotionState) (t0 : ℝ),
      s.lastTimestamp = some t0 → List.Chain (· ≤ ·) t0 ts →
      (runFrames cfg s ts).velocity =
        s.velocity * Real.exp (-((lastD ts t0 - t0) / 1000) / SMOOTH_TAU) := by
  intro ts
  induction ts with
  | nil =>
      intro s t0 _ _
      simp [runFrames, lastD]
  | cons t rest ih =>
      intro s t0 hlast hchain
      rcases List.chain_cons.mp hchain with ⟨h01, hrest⟩
      have hstep := animate_velocity_decay s hH h0 hlast h01
      have htail := ih (animate cfg s t) t (animate_lastTimestamp cfg s t) hrest
      have hrun : runFrames cfg s (t :: rest) =
          runFrames cfg (animate cfg s t) rest := by
        rw [runFrames, runFrames, List.foldl_cons]
      rw [hrun, htail, hstep, lastD, mul_assoc, ← Real.exp_add]
      congr 1
      field_simp [SMOOTH_TAU]

/-- C4: each frame computes `dt = max(0, t - lastTimestamp) / 1000`
seconds, with `dt = 0` on the first frame after activation, and updates
the velocity by `velocity += (target - velocity) * (1 - exp(-dt / 0.25))`;
consequently, while hovering with `hoverSpeed = 0`, the velocity decays
along `v = v0 * exp(-elapsedSeconds / 0.25)` across any chain of
nondecreasing frame timestamps, with no discontinuous jump. -/
theorem velocity_smoothing_spec :
    (∀ (s : MotionState) (t : ℝ), s.lastTimestamp = none →
        frameDeltaTime s t = 0) ∧
    (∀ (s : MotionState) (t t0 : ℝ), s.lastTimestamp = some t0 →
        frameDeltaTime s t = max 0 (t - t0) / 1000) ∧
    (∀ (cfg : Config) (s : MotionState) (t : ℝ),
        (animate cfg s t).velocity =
          s.velocity +
            (targetOf cfg.isHovered cfg.hoverSpeed cfg.targetVelocity -
                s.velocity) *
              (1 - Real.exp (-frameDeltaTime s t / 0.25))) ∧
    (∀ (cfg : Config) (s : MotionState) (t0 : ℝ) (ts : List ℝ),
        cfg.isHovered = true → cfg.hoverSpeed = some 0 →
        s.lastTimestamp = some t0 → List.Chain (· ≤ ·) t0 ts →
        (runFrames cfg s ts).velocity =
          s.velocity * Real.exp (-((lastD ts t0 - t0) / 1000) / 0.25)) := by
  refine ⟨?_, ?_, ?_, ?_⟩
  · intro s t h
    rw [frameDeltaTime, h, Option.getD_none]
    simp
  · intro s t t0 h
    rw [frameDeltaTime, h, Option.getD_some]
  · intro cfg s t
    exact animate_velocity cfg s t
  · intro cfg s t0 ts hH h0 hlast hchain
    exact runFrames_velocity_decay hH h0 ts s t0 hlast hchain

theorem updateDimensions_copyCount_ge {cw sw : ℚ} (s : LayoutState)
    (hw : 0 < sw) :
    ⌈cw / sw⌉ + 2 ≤ (updateDimensions cw sw s).copyCount := by
  rw [updateDimensions, if_pos hw]
  exact le_max_right _ _

theorem runLayout_copyCount_ge_two :
    ∀ (measurements : List (ℚ × ℚ)) (s : LayoutState),
      2 ≤ s.copyCount →
      2 ≤ (measurements.foldl (fun s m => updateDimensions m.1 m.2 s)
            s).copyCount := by
  intro measurements
  induction measurements with
  | nil => intro s hs; exact hs
  | cons m rest ih =>
      intro s hs
      rw [List.foldl_cons]
      refine ih _ ?_
      rw [updateDimensions]
      split
      · exact le_max_left _ _
      · exact hs

/-- C3: a layout recomputation that measures a positive sequence width sets
`copyCount = max(2, ceil(containerWidth / sequenceWidth) + 2)` (and stores
the ceiling of the measured width); a measurement of width `0` leaves both
state cells unchanged; hence every reachable layout state has
`copyCount ≥ 2`, and after any update with a positive measured width
`copyCount ≥ ceil(containerWidth / sequenceWidth) + 2`. -/
theorem copy_count_spec :
    (∀ (cw sw : ℚ) (s : LayoutState), 0 < sw →
        updateDimensions cw sw s =
          { seqWidth := ⌈sw⌉, copyCount := max 2 (⌈cw / sw⌉ + 2) }) ∧
    (∀ (cw : ℚ) (s : LayoutState), updateDimensions cw 0 s = s) ∧
    (∀ measurements : List (ℚ × ℚ), 2 ≤ (runLayout measurements).copyCount) ∧
    (∀ (cw sw : ℚ) (s : LayoutState), 0 < sw →
        ⌈cw / sw⌉ + 2 ≤ (updateDimensions cw sw s).copyCount) ∧
    (∀ (measurements : List (ℚ × ℚ)) (cw sw : ℚ), 0 < sw →
        ⌈cw / sw⌉ + 2 ≤
          (runLayout (measurements ++ [(cw, sw)])).copyCount) := by
  refine ⟨?_, ?_, ?_, ?_, ?_⟩
  · intro cw sw s hw
    rw [updateDimensions, if_pos hw]
    rfl
  · intro cw s
    rw [updateDimensions, if_neg (lt_irrefl 0)]
  · intro measurements
    exact runLayout_copyCount_ge_two measurements LayoutState.initial le_rfl
  · intro cw sw s hw
    exact updateDimensions_copyCount_ge s hw
  · intro measurements cw sw hw
    rw [runLayout, List.foldl_append, List.foldl_cons, List.foldl_nil]
    exact updateDimensions_copyCount_ge _ hw

theorem copy_count_spec_witness :
    (0 : ℚ) < 200 ∧
      updateDimensions 250 200 LayoutState.initial =
        { seqWidth := 200, copyCount := 4 } := by
  refine ⟨by norm_num, ?_⟩
  have h := copy_count_spec.1 250 200 LayoutState.initial (by norm_num)
  rw [h, show ⌈(250 : ℚ) / 200⌉ = 2 from by norm_num [Int.ceil_eq_iff]]
  norm_num [LayoutState.mk.injEq, max_def]

theorem animate_transform (cfg : Config) (s : MotionState) (t : ℝ) :
    (animate cfg s t).transform =
      if 0 < cfg.seqWidth then -(animate cfg s t).offset
      else s.transform := rfl

theorem animate_zero_width {cfg : Config} (hw : cfg.seqWidth = 0)
    (s : MotionState) (t : ℝ) :
    (animate cfg s t).offset = s.offset ∧
      (animate cfg s t).transform = s.transform := by
  have hnw : ¬0 < cfg.seqWidth := by rw [hw]; exact lt_irrefl 0
  exact ⟨by rw [animate_offset, if_neg hnw],
    by rw [animate_transform, if_neg hnw]⟩

theorem frames_zero_width_fixed :
    ∀ (ts : List ℝ) (s : LoopState), s.cfg.seqWidth = 0 →
      ((ts.map Event.frame).foldl (stepEvent false) s).ms.offset =
          s.ms.offset ∧
        ((ts.map Event.frame).foldl (stepEvent false) s).ms.transform =
          s.ms.transform := by
  intro ts
  induction ts with
  | nil => intro s _; exact ⟨rfl, rfl⟩
  | cons t rest ih =>
      intro s hw
      rw [List.map_cons, List.foldl_cons]
      have hstep : stepEvent false s (Event.frame t) =
          if s.ms.rafPending then { s with ms := animate s.cfg s.ms t }
          else s := rfl
      rw [hstep]
      by_cases hraf : s.ms.rafPending
      · rw [if_pos hraf]
        have hz := animate_zero_width hw s.ms t
        have hrec := ih { s with ms := animate s.cfg s.ms t } hw
        exact ⟨hrec.1.trans hz.1, hrec.2.trans hz.2⟩
      · rw [if_neg hraf]
        exact ih s hw

theorem mount_zero_width {cfg : Config} (hw : cfg.seqWidth = 0) :
    (mount false cfg).ms.offset = 0 ∧ (mount false cfg).ms.transform = 0 := by
  have hnw : ¬0 < cfg.seqWidth := by rw [hw]; exact lt_irrefl 0
  constructor <;>
    simp [mount, setupEffect, hnw, MotionState.initial]

/-- C5: while `seqWidth = 0` (e.g. an empty item list) every operation is
total and advances nothing: a frame leaves the offset and the applied
translation unchanged, any number of frames after mount leaves both at
their mount value `0`, and a layout recomputation that measures width `0`
leaves the layout state untouched (its division by the measured width is
never reached). -/
theorem zero_width_is_safe :
    (∀ (cfg : Config) (s : MotionState) (t : ℝ), cfg.seqWidth = 0 →
        (animate cfg s t).offset = s.offset ∧
          (animate cfg s t).transform = s.transform) ∧
    (∀ (cfg : Config) (ts : List ℝ), cfg.seqWidth = 0 →
        (run false (mount false cfg) (ts.map Event.frame)).ms.offset = 0 ∧
          (run false (mount false cfg) (ts.map Event.frame)).ms.transform
            = 0) ∧
    (∀ (cw : ℚ) (s : LayoutState), updateDimensions cw 0 s = s) := by
  refine ⟨fun cfg s t hw => animate_zero_width hw s t, ?_, ?_⟩
  · intro cfg ts hw
    have hfix := frames_zero_width_fixed ts (mount false cfg) hw
    have hm := mount_zero_width hw
    exact ⟨hfix.1.trans hm.1, hfix.2.trans hm.2⟩
  · intro cw s
    rw [updateDimensions, if_neg (lt_irrefl 0)]

theorem zero_width_is_safe_witness :
    (⟨120, 0, false, none⟩ : Config).seqWidth = 0 ∧
      (run false (mount false ⟨120, 0, false, none⟩)
          ([16, 32, 48].map Event.frame)).ms.offset = 0 ∧
        (run false (mount false ⟨120, 0, false, none⟩)
            ([16, 32, 48].map Event.frame)).ms.transform = 0 :=
  ⟨rfl, zero_width_is_safe.2.1 ⟨120, 0, false, none⟩ [16, 32, 48] rfl⟩

theorem velocity_smoothing_spec_witness :
    ((⟨true, some 0, 0, 5, 0⟩ : MotionState).lastTimestamp = some 0 ∧
        List.Chain (· ≤ ·) (0 : ℝ) [250, 500]) ∧
      (runFrames ⟨120, 1, true, some 0⟩ ⟨true, some 0, 0, 5, 0⟩
            [250, 500]).velocity =
        5 * Real.exp (-((lastD [250, 500] 0 - 0) / 1000) / 0.25) :=
  ⟨⟨rfl, by norm_num [List.chain_cons]⟩,
   velocity_smoothing_spec.2.2.2 ⟨120, 1, true, some 0⟩
     ⟨true, some 0, 0, 5, 0⟩ 0 [250, 500] rfl rfl rfl
     (by norm_num [List.chain_cons])⟩

theorem setupEffect_lastTimestamp (red : Bool) (cfg : Config)
    (s : MotionState) :
    (setupEffect red cfg s).lastTimestamp = s.lastTimestamp := by
  rw [setupEffect]
  by_cases hw : 0 < cfg.seqWidth <;> by_cases hr : red <;>
    simp [hw, hr]

theorem setupEffect_true_fields (cfg : Config) (s : MotionState)
    (h0 : s.offset = 0) :
    (setupEffect true cfg s).rafPending = s.rafPending ∧
      (setupEffect true cfg s).offset = 0 ∧
      (setupEffect true cfg s).transform = 0 := by
  rw [setupEffect]
  by_cases hw : 0 < cfg.seqWidth
  · simp [hw, h0, wrap_zero hw]
  · simp [hw, h0]

theorem run_reduced_inv :
    ∀ (events : List Event) (s : LoopState),
      s.ms.rafPending = false → s.ms.offset = 0 → s.ms.transform = 0 →
      (run true s events).ms.rafPending = false ∧
        (run true s events).ms.offset = 0 ∧
        (run true s events).ms.transform = 0 := by
  intro events
  induction events with
  | nil => intro s h1 h2 h3; exact ⟨h1, h2, h3⟩
  | cons e rest ih =>
      intro s h1 h2 h3
      rw [run, List.foldl_cons]
      have hrec := ih (stepEvent true s e)
      cases e with
      | frame t =>
          have hstep : stepEvent true s (Event.frame t) = s := by
            show (if s.ms.rafPending then _ else s) = s
            rw [h1, if_neg (by simp)]
          rw [run] at hrec
          rw [hstep] at hrec ⊢
          exact hrec h1 h2 h3
      | reconfig c =>
          have hms : (stepEvent true s (Event.reconfig c)).ms =
              setupEffect true c (cleanupReduced s.ms) := rfl
          have hclean : (cleanupReduced s.ms).offset = 0 := h2
          have hf := setupEffect_true_fields c (cleanupReduced s.ms) hclean
          rw [run] at hrec
          refine hrec ?_ ?_ ?_
          · rw [hms, hf.1]
            exact h1
          · rw [hms]
            exact hf.2.1
          · rw [hms]
            exact hf.2.2
      | unmount =>
          have hms : (stepEvent true s Event.unmount).ms =
              cleanupReduced s.ms := rfl
          rw [run] at hrec
          refine hrec ?_ ?_ ?_ <;> rw [hms]
          · exact h1
          · exact h2
          · exact h3

/-- C7: if the host signals a reduced-motion preference at mount, then for
the whole mount the track translation is pinned to `0`, no animation frame
is ever scheduled, and the offset remains `0` — across any sequence of
host events (frame callbacks, dependency changes, unmount). -/
theorem reduced_motion_spec (cfg0 : Config) (events : List Event) :
    (run true (mount true cfg0) events).ms.rafPending = false ∧
      (run true (mount true cfg0) events).ms.offset = 0 ∧
      (run true (mount true cfg0) events).ms.transform = 0 := by
  have hinit := setupEffect_true_fields cfg0 MotionState.initial rfl
  exact run_reduced_inv events (mount true cfg0) hinit.1 hinit.2.1 hinit.2.2

theorem frames_noop_without_raf :
    ∀ (ts : List ℝ) (s : LoopState), s.ms.rafPending = false →
      run false s (ts.map Event.frame) = s := by
  intro ts
  induction ts with
  | nil => intro s _; rfl
  | cons t rest ih =>
      intro s hraf
      rw [List.map_cons, run, List.foldl_cons]
      have hstep : stepEvent false s (Event.frame t) = s := by
        show (if s.ms.rafPending then _ else s) = s
        rw [hraf, if_neg (by simp)]
      rw [hstep]
      exact ih s hraf

theorem disconnectObservers_all_false (observers : List Bool) :
    disconnectObservers observers = List.replicate observers.length false := by
  rw [disconnectObservers, List.map_const']

/-- C9: the animating effect's cleanup — run on unmount and on every change
of `targetVelocity` (speed/direction), `seqWidth`, `isHovered` or
`hoverSpeed` — cancels the pending frame callback and discards
`lastTimestamp` while touching nothing else, so the first frame of the next
activation has `dt = 0`; after teardown no frame callback fires (any number
of frame events leaves the state untouched); and the resize-observer
cleanup disconnects every observer. -/
theorem teardown_spec :
    (∀ s : MotionState,
        (cleanupAnimating s).rafPending = false ∧
          (cleanupAnimating s).lastTimestamp = none ∧
          (cleanupAnimating s).offset = s.offset ∧
          (cleanupAnimating s).velocity = s.velocity) ∧
    (∀ (s : MotionState) (t : ℝ),
        frameDeltaTime (cleanupAnimating s) t = 0) ∧
    (∀ (red : Bool) (cfg : Config) (s : MotionState) (t : ℝ),
        frameDeltaTime (setupEffect red cfg (cleanupAnimating s)) t = 0) ∧
    (∀ (s : LoopState) (ts : List ℝ),
        run false (stepEvent false s Event.unmount) (ts.map Event.frame) =
          stepEvent false s Event.unmount) ∧
    (∀ observers : List Bool,
        disconnectObservers observers =
          List.replicate observers.length false) := by
  refine ⟨fun s => ⟨rfl, rfl, rfl, rfl⟩, ?_, ?_, ?_,
    disconnectObservers_all_false⟩
  · intro s t
    rw [frameDeltaTime]
    show max 0 (t - (none : Option ℝ).getD t) / 1000 = 0
    simp
  · intro red cfg s t
    rw [frameDeltaTime, setupEffect_lastTimestamp]
    show max 0 (t - (none : Option ℝ).getD t) / 1000 = 0
    simp
  · intro s ts
    refine frames_noop_without_raf ts _ ?_
    rfl

/-- C10: a re-activation of the animation loop inside one mount (any
dependency change) carries the offset and the smoothed velocity over: the
velocity is never reset, the offset is only re-normalised modulo the new
sequence width (and is unchanged when it is already in `[0, w)`, so no
positional jump occurs), and only the frame handle and `lastTimestamp` are
cleared. -/
theorem reactivation_preserves_motion (s : LoopState) (c : Config) :
    (stepEvent false s (Event.reconfig c)).ms.velocity = s.ms.velocity ∧
    (stepEvent false s (Event.reconfig c)).ms.offset =
      (if 0 < c.seqWidth then wrap s.ms.offset c.seqWidth
       else s.ms.offset) ∧
    (stepEvent false s (Event.reconfig c)).ms.lastTimestamp = none ∧
    (stepEvent false s (Event.reconfig c)).ms.rafPending = true ∧
    (stepEvent false s (Event.reconfig c)).cfg = c ∧
    (0 < c.seqWidth → 0 ≤ s.ms.offset → s.ms.offset < c.seqWidth →
      (stepEvent false s (Event.reconfig c)).ms.offset = s.ms.offset) := by
  have hms : (stepEvent false s (Event.reconfig c)).ms =
      setupEffect false c (cleanupAnimating s.ms) := rfl
  have hvel : (setupEffect false c (cleanupAnimating s.ms)).velocity =
      s.ms.velocity := by
    rw [setupEffect]
    by_cases hw : 0 < c.seqWidth <;> simp [hw, cleanupAnimating]
  have hoff : (setupEffect false c (cleanupAnimating s.ms)).offset =
      (if 0 < c.seqWidth then wrap s.ms.offset c.seqWidth
       else s.ms.offset) := by
    rw [setupEffect]
    by_cases hw : 0 < c.seqWidth <;> simp [hw, cleanupAnimating]
  have hlast : (setupEffect false c (cleanupAnimating s.ms)).lastTimestamp =
      none := by
    rw [setupEffect_lastTimestamp]
    rfl
  have hraf : (setupEffect false c (cleanupAnimating s.ms)).rafPending =
      true := by
    rw [setupEffect]
    by_cases hw : 0 < c.seqWidth <;> simp [hw]
  refine ⟨by rw [hms, hvel], by rw [hms, hoff], by rw [hms, hlast],
    by rw [hms, hraf], rfl, ?_⟩
  intro hw h0 h1
  rw [hms, hoff, if_pos hw, wrap_eq_self hw h0 h1]

theorem reactivation_preserves_motion_witness :
    ((0 : ℝ) < 2 ∧ (0 : ℝ) ≤ 1 / 2 ∧ (1 / 2 : ℝ) < 2) ∧
      (stepEvent false
            ⟨⟨true, some 3, 1 / 2, 7, -(1 / 2)⟩, ⟨120, 1, false, none⟩⟩
            (Event.reconfig ⟨60, 2, true, some 0⟩)).ms.offset =
        (⟨⟨true, some 3, 1 / 2, 7, -(1 / 2)⟩, ⟨120, 1, false, none⟩⟩ :
            LoopState).ms.offset :=
  ⟨⟨by norm_num, by norm_num, by norm_num⟩,
   (reactivation_preserves_motion
        ⟨⟨true, some 3, 1 / 2, 7, -(1 / 2)⟩, ⟨120, 1, false, none⟩⟩
        ⟨60, 2, true, some 0⟩).2.2.2.2.2
     (by norm_num) (by norm_num) (by norm_num)⟩

theorem iterate_handleImageLoad_nonpos :
    ∀ (j : ℕ) (N : ℤ) (c : ℕ), N ≤ 0 →
      handleImageLoad^[j] ⟨N, c⟩ = ⟨N - j, c⟩ := by
  intro j
  induction j with
  | zero => intro N c _; simp
  | succ j ih =>
      intro N c hN
      rw [Function.iterate_succ_apply]
      have hstep : handleImageLoad ⟨N, c⟩ = ⟨N - 1, c⟩ := by
        rw [handleImageLoad]
        simp only [if_neg (by omega : ¬N - 1 = 0)]
      rw [hstep, ih (N - 1) c (by omega)]
      congr 1
      push_cast
      ring

theorem iterate_handleImageLoad :
    ∀ (j : ℕ) (N : ℤ) (c : ℕ), 1 ≤ N →
      handleImageLoad^[j] ⟨N, c⟩ =
        ⟨N - j, if N ≤ (j : ℤ) then c + 1 else c⟩ := by
  intro j
  induction j with
  | zero =>
      intro N c hN
      simp only [Function.iterate_zero, id_eq]
      rw [if_neg (by omega)]
      simp
  | succ j ih =>
      intro N c hN
      rw [Function.iterate_succ_apply]
      by_cases h1 : N = 1
      · subst h1
        have hstep : handleImageLoad ⟨1, c⟩ = ⟨0, c + 1⟩ := by
          rw [handleImageLoad]
          simp
        rw [hstep, iterate_handleImageLoad_nonpos j 0 (c + 1) le_rfl,
          if_pos (by omega)]
        congr 1
        push_cast
        ring
      · have hstep : handleImageLoad ⟨N, c⟩ = ⟨N - 1, c⟩ := by
          rw [handleImageLoad]
          simp only [if_neg (by omega : ¬N - 1 = 0)]
        rw [hstep, ih (N - 1) c (by omega)]
        simp only [LoaderState.mk.injEq]
        refine ⟨by push_cast; ring, ?_⟩
        by_cases hle : N - 1 ≤ (j : ℤ)
        · rw [if_pos hle, if_pos (by push_cast; omega)]
        · rw [if_neg hle, if_neg (by push_cast; omega)]

theorem settleImages_eq_iterate :
    ∀ (outcomes : List Bool) (s : LoaderState),
      settleImages s outcomes = handleImageLoad^[outcomes.length] s := by
  intro outcomes
  induction outcomes with
  | nil => intro s; rfl
  | cons o rest ih =>
      intro s
      rw [settleImages, List.foldl_cons]
      show settleImages (handleImageLoad s) rest = _
      rw [ih (handleImageLoad s), List.length_cons,
        Function.iterate_succ_apply]

theorem foldl_complete_eq_iterate :
    ∀ (images : List Bool) (s : LoaderState),
      images.foldl (fun s complete => if complete then handleImageLoad s
          else s) s =
        handleImageLoad^[(images.filter id).length] s := by
  intro images
  induction images with
  | nil => intro s; rfl
  | cons c rest ih =>
      intro s
      rw [List.foldl_cons]
      cases c
      · show rest.foldl _ s = _
        rw [ih s]
        rfl
      · show rest.foldl _ (handleImageLoad s) = _
        rw [ih (handleImageLoad s)]
        rw [show ((true :: rest).filter id).length =
            (rest.filter id).length + 1 from by simp,
          Function.iterate_succ_apply]

theorem filter_length_split :
    ∀ images : List Bool,
      (images.filter id).length + (images.filter (fun c => !c)).length =
        images.length := by
  intro images
  induction images with
  | nil => rfl
  | cons c rest ih =>
      cases c <;> simp only [List.filter, List.length_cons] <;>
        simp only [id, Bool.not_false, Bool.not_true, List.length_cons] <;>
        omega

theorem settled_loader_state {images outcomes : List Bool}
    (hne : images ≠ []) :
    settleImages (setupImageLoader true images) outcomes =
      handleImageLoad^[(images.filter id).length + outcomes.length]
        ⟨(images.length : ℤ), 0⟩ := by
  rw [setupImageLoader, if_neg (by simp), if_neg (by simp [hne]),
    foldl_complete_eq_iterate, settleImages_eq_iterate,
    ← Function.iterate_add_apply, Nat.add_comm]

/-- C6: the layout recomputation callback fires exactly once, when all `N`
images have settled, with a failed load counted exactly like a success
(both listeners are the same handler, so the settle outcome is ignored):
with no images (or no container) it fires once immediately; with `N ≥ 1`
images it has fired `0` times while any image is unsettled and exactly
`1` time once the initially-complete images plus one settle event per
remaining image have all been processed — in particular when all `N`
images fail. -/
theorem image_loader_fires_once :
    (∀ images : List Bool, setupImageLoader false images =
        { remaining := 0, loadCalls := 1 }) ∧
    (setupImageLoader true [] = { remaining := 0, loadCalls := 1 }) ∧
    (∀ (s : LoaderState) (outcome : Bool),
        settleImage s outcome = handleImageLoad s) ∧
    (∀ images outcomes : List Bool, images ≠ [] →
        outcomes.length = (images.filter (fun c => !c)).length →
        (settleImages (setupImageLoader true images) outcomes).loadCalls
          = 1) ∧
    (∀ images outcomes : List Bool, images ≠ [] →
        outcomes.length < (images.filter (fun c => !c)).length →
        (settleImages (setupImageLoader true images) outcomes).loadCalls
          = 0) ∧
    (∀ n : ℕ, 0 < n →
        (settleImages (setupImageLoader true (List.replicate n false))
            (List.replicate n false)).loadCalls = 1) := by
  have hN : ∀ images : List Bool, images ≠ [] →
      1 ≤ (images.length : ℤ) := by
    intro images hne
    have := List.length_pos.mpr hne
    omega
  have hfull : ∀ images outcomes : List Bool, images ≠ [] →
      outcomes.length = (images.filter (fun c => !c)).length →
      (settleImages (setupImageLoader true images) outcomes).loadCalls
        = 1 := by
    intro images outcomes hne hlen
    rw [settled_loader_state hne, hlen, filter_length_split,
      iterate_handleImageLoad _ _ _ (hN images hne), if_pos le_rfl]
  refine ⟨?_, rfl, fun _ _ => rfl, hfull, ?_, ?_⟩
  · intro images
    rw [setupImageLoader, if_pos rfl]
  · intro images outcomes hne hlt
    rw [settled_loader_state hne,
      iterate_handleImageLoad _ _ _ (hN images hne), if_neg ?_]
    have hsplit := filter_length_split images
    push_cast
    omega
  · intro n hn
    refine hfull _ _ (by simp [Nat.pos_iff_ne_zero.mp hn]) ?_
    simp

theorem image_loader_fires_once_witness :
    (([false, false] : List Bool) ≠ [] ∧
        ([false, false] : List Bool).length =
          (([false, false] : List Bool).filter (fun c => !c)).length) ∧
      (settleImages (setupImageLoader true [false, false])
          [false, false]).loadCalls = 1 :=
  ⟨⟨by simp, by simp⟩,
   image_loader_fires_once.2.2.2.1 [false, false] [false, false]
     (by simp) (by simp)⟩

theorem accessibleName_eq (item : LogoItem) :
    jsTruthyOr (itemAriaLabelOf item) "logo link" =
      amendedAccessibleName item := by
  rcases item with ⟨node, src, alt, title, href, ariaLabel⟩
  cases node <;> cases ariaLabel <;> cases alt <;> cases title <;> rfl

/-- C8 as stated is false: for an image item (no `node` field) carrying an
`href`, an `ariaLabel` and a `title` but no `alt`, the rendered link's
accessible name is the `title`, not the `ariaLabel` the claim's precedence
demands (the code uses `alt ?? title` for image items, line 332). -/
theorem link_accessible_name_counterexample :
    (renderLink
          ⟨false, some "x.png", none, some "T", some "h", some "X"⟩).map
        LinkAttrs.ariaLabel ≠
      some (claimedAccessibleName
        ⟨false, some "x.png", none, some "T", some "h", some "X"⟩) := by
  decide

/-- C8 (amended): every item carrying an `href` is wrapped in a link with
`target="_blank"` and `rel="noreferrer noopener"`, and the link's
accessible name follows the precedence the code implements: the primary
label (`ariaLabel` for inline-content items, `alt` for image items), else
the `title`, with a missing or empty result replaced by `"logo link"`. -/
theorem link_accessible_name_amended (item : LogoItem) (h : String)
    (hhref : item.href = some h) :
    renderLink item =
      some
        { href := h
          ariaLabel := amendedAccessibleName item
          target := "_blank"
          rel := "noreferrer noopener" } := by
  rw [← accessibleName_eq, renderLink, hhref]

theorem link_accessible_name_amended_witness :
    (⟨false, some "x.png", none, some "T", some "h", some "X"⟩ :
          LogoItem).href = some "h" ∧
      renderLink ⟨false, some "x.png", none, some "T", some "h", some "X"⟩ =
        some
          { href := "h"
            ariaLabel := amendedAccessibleName
              ⟨false, some "x.png", none, some "T", some "h", some "X"⟩
            target := "_blank"
            rel := "noreferrer noopener" } :=
  ⟨rfl,
   link_accessible_name_amended
     ⟨false, some "x.png", none, some "T", some "h", some "X"⟩ "h" rfl⟩

end LogoLoop
